import Mathlib

/-
Shallow embedding of the hippocampus benchmark `hip_ae/hip_bench.go`:
the CHL (Contrastive Hebbian Learning) synaptic learning rule, the
alpha-cycle weight-scale protocol of `Sim.AlphaCyc` and its variants,
and the memory-completion statistics `Sim.MemStats`.

float32/float64 values are embedded as rationals; the claims under
study are exact algebraic identities and branch conditions, which the
rational embedding mirrors field by field.
-/

namespace HipBench

/-- Structure `CHLParams` from hip_bench.go: parameters of the CHL learning rule. -/
structure CHLParams where
  On : Bool
  Hebb : ℚ
  Err : ℚ
  MinusQ1 : Bool
  MinusQ2 : Bool
  SAvgCor : ℚ
  SAvgThr : ℚ
deriving DecidableEq

/-- Method `CHLParams.Update`: recomputes `Err` as `1 - Hebb`. -/
def CHLParams.Update (ch : CHLParams) : CHLParams :=
  { ch with Err := 1 - ch.Hebb }

/-- Method `CHLParams.Defaults`: sets the default parameter values, then `Update`. -/
def CHLParams.Defaults (ch : CHLParams) : CHLParams :=
  CHLParams.Update { ch with On := true, Hebb := 1/1000, SAvgCor := 2/5, SAvgThr := 1/1000 }

/-- Method `CHLParams.MinusAct`: selects the minus-phase activation variable
(`ActQ1` if `MinusQ1`, else `ActQ2` if `MinusQ2`, else `ActM`). -/
def CHLParams.MinusAct (ch : CHLParams) (actM actQ1 actQ2 : ℚ) : ℚ :=
  if ch.MinusQ1 then actQ1
  else if ch.MinusQ2 then actQ2
  else actM

/-- Method `CHLParams.HebbDWt`: the hebbian term of the CHL rule. -/
def CHLParams.HebbDWt (_ch : CHLParams) (sact ract savgCor linWt : ℚ) : ℚ :=
  ract * (sact * (savgCor - linWt) - (1 - sact) * linWt)

/-- Method `CHLParams.ErrDWt`: the error-driven term of the CHL rule with
soft weight bounding. -/
def CHLParams.ErrDWt (_ch : CHLParams) (sactP sactM ractP ractM linWt : ℚ) : ℚ :=
  let err := ractP * sactP - ractM * sactM
  if err > 0 then err * (1 - linWt) else err * linWt

/-- Method `CHLParams.DWt`: combines the hebbian and error terms. -/
def CHLParams.DWt (ch : CHLParams) (hebb err : ℚ) : ℚ :=
  ch.Hebb * hebb + ch.Err * err

/-- One synapse: linear weight, accumulated weight delta, and the
normalization / momentum accumulators (`leabra.Synapse` fields used here). -/
structure Synapse where
  LWt : ℚ
  DWt : ℚ
  Norm : ℚ
  Moment : ℚ
deriving DecidableEq

instance : Inhabited Synapse := ⟨⟨0, 0, 0, 0⟩⟩

/-- One neuron's phase-activation snapshot (`leabra.Neuron` fields used here). -/
structure Neuron where
  ActM : ℚ
  ActQ1 : ℚ
  ActQ2 : ℚ
  ActP : ℚ
deriving DecidableEq

instance : Inhabited Neuron := ⟨⟨0, 0, 0, 0⟩⟩

/-- The projection-level learning configuration used by `CHLPrjn`
(`leabra.LearnSynParams` fields referenced in hip_bench.go). -/
structure LearnParams where
  Learn : Bool
  Lrate : ℚ
  NormOn : Bool
  MomentumOn : Bool
  SoftBound : Bool
deriving DecidableEq

/-- The sending/receiving-layer state read by `CHLPrjn.DWtCHL`:
neurons, `Pools[0].ActP.Avg` and `Pools[0].ActAvg.ActPAvgEff`. -/
structure Layer where
  Neurons : List Neuron
  ActPAvg : ℚ
  ActPAvgEff : ℚ
deriving DecidableEq

/-- Structure `CHLPrjn`: CHL parameters, learning parameters, the per-sending-unit
connectivity tables `SConN`/`SConIdxSt`/`SConIdx` and the synapse array. -/
structure CHLPrjn where
  CHL : CHLParams
  Learn : LearnParams
  SConN : List ℕ
  SConIdxSt : List ℕ
  SConIdx : List ℕ
  Syns : List Synapse
deriving DecidableEq

/-- Method `CHLPrjn.SAvgCor`: sending average activation corrected by the
`SAvgCor` factor, floored at `SAvgThr`, returned as `0.5 / savg`. -/
def CHLPrjn.SAvgCor (pj : CHLPrjn) (slay : Layer) : ℚ :=
  let savg := 1/2 + pj.CHL.SAvgCor * (slay.ActPAvgEff - 1/2)
  let savg := max pj.CHL.SAvgThr savg
  (1/2) / savg

/-- The inner-loop body of `CHLPrjn.DWtCHL` for one synapse `sy` with
receiving neuron `rn`.  `normFm` models the external
`Learn.Norm.NormFmAbsDWt` (returns updated `Norm` accumulator and the
norm factor); `momentFm` models the external `Learn.Momentum.MomentFmDWt`
(returns updated `Moment` accumulator and the momentum-blended value). -/
def chlSynStep (chl : CHLParams) (lrn : LearnParams)
    (normFm momentFm : ℚ → ℚ → ℚ × ℚ)
    (savgCor snActM : ℚ) (sn : Neuron) (rn : Neuron) (sy : Synapse) : Synapse :=
  let rnActM := chl.MinusAct rn.ActM rn.ActQ1 rn.ActQ2
  let hebb := chl.HebbDWt sn.ActP rn.ActP savgCor sy.LWt
  let err := chl.ErrDWt sn.ActP snActM rn.ActP rnActM sy.LWt
  let dwt := chl.DWt hebb err
  let np := if lrn.NormOn then normFm sy.Norm |dwt| else (sy.Norm, 1)
  let mp := if lrn.MomentumOn then
      let m := momentFm sy.Moment dwt
      (m.1, np.2 * m.2)
    else (sy.Moment, dwt * np.2)
  { sy with Norm := np.1, Moment := mp.1, DWt := sy.DWt + lrn.Lrate * mp.2 }

/-- The per-sending-unit section of `CHLPrjn.DWtCHL`: updates the slice of
synapses of one sending neuron, then (when `Norm.On`) broadcasts the
maximum `Norm` accumulator back over the slice. -/
def chlSegStep (chl : CHLParams) (lrn : LearnParams)
    (normFm momentFm : ℚ → ℚ → ℚ × ℚ)
    (savgCor snActM : ℚ) (sn : Neuron) (rns : List Neuron)
    (seg : List Synapse) (scons : List ℕ) : List Synapse :=
  let seg1 := (seg.zip scons).map fun p =>
    chlSynStep chl lrn normFm momentFm savgCor snActM sn (rns.getD p.2 default) p.1
  if lrn.NormOn then
    let maxNorm := seg1.foldl (fun m sy => if sy.Norm > m then sy.Norm else m) 0
    seg1.map fun sy => { sy with Norm := maxNorm }
  else seg1

/-- The body of the sending-neuron loop of `CHLPrjn.DWtCHL`: reads the
connectivity tables for sending neuron `si`, takes the slice
`syns[st : st+nc]` and its receiving-unit indices, processes it with
`chlSegStep` and splices the result back. -/
def dwtCHLStep (pj : CHLPrjn) (slay rlay : Layer)
    (normFm momentFm : ℚ → ℚ → ℚ × ℚ) (syns : List Synapse) (si : ℕ) : List Synapse :=
  let nc := pj.SConN.getD si 0
  let st := pj.SConIdxSt.getD si 0
  let sn := slay.Neurons.getD si default
  let snActM := pj.CHL.MinusAct sn.ActM sn.ActQ1 sn.ActQ2
  let savgCor := pj.SAvgCor slay
  let seg := (syns.drop st).take nc
  let scons := (pj.SConIdx.drop st).take nc
  syns.take st
    ++ chlSegStep pj.CHL pj.Learn normFm momentFm savgCor snActM sn rlay.Neurons seg scons
    ++ syns.drop (st + nc)

/-- Method `CHLPrjn.DWtCHL`: the CHL learning pass.  Skips the whole projection
when the sending layer's plus-phase average activation is below
`SAvgThr`; otherwise processes, for each sending neuron `si`, the synapse
slice `Syns[SConIdxSt[si] : SConIdxSt[si]+SConN[si]]`. -/
def CHLPrjn.DWtCHL (pj : CHLPrjn) (slay rlay : Layer)
    (normFm momentFm : ℚ → ℚ → ℚ × ℚ) : CHLPrjn :=
  if slay.ActPAvg < pj.CHL.SAvgThr then pj
  else
    { pj with Syns :=
        (List.range slay.Neurons.length).foldl (dwtCHLStep pj slay rlay normFm momentFm) pj.Syns }

/-- Method `CHLPrjn.DWt`: returns unchanged when learning is off, dispatches to
`DWtCHL` when CHL is on, and to the external default rule `prjnDWt`
(leabra `Prjn.DWt`, outside this repository) otherwise. -/
def CHLPrjn.DWt (pj : CHLPrjn) (slay rlay : Layer)
    (normFm momentFm : ℚ → ℚ → ℚ × ℚ) (prjnDWt : CHLPrjn → CHLPrjn) : CHLPrjn :=
  if !pj.Learn.Learn then pj
  else if pj.CHL.On then pj.DWtCHL slay rlay normFm momentFm
  else prjnDWt pj

/-- Method `CHLPrjn.UpdateParams`: updates the CHL parameters, forces
`WtSig.SoftBound` off when CHL is on, then runs the external
`Prjn.UpdateParams` (modelled as `prjnUpdate`, which only touches the
embedded leabra learning parameters, not the `CHL` field). -/
def CHLPrjn.UpdateParams (pj : CHLPrjn) (prjnUpdate : LearnParams → LearnParams) : CHLPrjn :=
  let pj1 := { pj with CHL := pj.CHL.Update }
  let pj2 := if pj1.CHL.On then { pj1 with Learn := { pj1.Learn with SoftBound := false } } else pj1
  { pj2 with Learn := prjnUpdate pj2.Learn }

/-
Alpha-cycle weight-scale protocol.  The `Sim.AlphaCyc*` trial functions
mutate a fixed set of pathway weight-scale scalars at the trial start,
at the quarter-0→1 / quarter-1→2 / quarter-2→3 transitions, and after
the quarter loop.  `WtScales` collects exactly the scale fields those
functions write; each phase below is the straight-line block of scale
assignments of the corresponding place in the Go code (the activation
cycling, clamping, logging and view code in between does not touch
weight scales).
-/

/-- The pathway weight-scale scalars mutated by the trial functions. -/
structure WtScales where
  ca1FmECinAbs : ℚ
  ca1FmCa3Abs : ℚ
  ca3FmDgRel : ℚ
  outputFmCortexRel : ℚ
  autohidFmAutoinAbs : ℚ
  autohidFmECoutAbs : ℚ
deriving DecidableEq

/-- The configuration read by the trial functions: `ss.Hip.MossyDel`,
`ss.Hip.MossyDelTest` and the `ss.Hiponly` flag. -/
structure SimCfg where
  MossyDel : ℚ
  MossyDelTest : ℚ
  Hiponly : Bool
deriving DecidableEq

/-- Pre-loop block of `Sim.AlphaCyc`: first-quarter scales (CA1 driven by
ECin), the Hiponly-dependent Output←Cortex scale, and the mossy-delta
weakening of CA3←DG (whose pre-trial value was captured as `dgwtscale`
just before the subtraction). -/
def alphaCycQ0 (cfg : SimCfg) (s : WtScales) : WtScales :=
  { s with ca1FmECinAbs := 1, ca1FmCa3Abs := 0,
           outputFmCortexRel := if cfg.Hiponly then 0 else 1/2,
           ca3FmDgRel := s.ca3FmDgRel - cfg.MossyDel }

/-- Case 1 of the quarter switch of `Sim.AlphaCyc` (quarter-0→1
transition): CA1 driven by CA3 recall; CA3←DG restored to `dgwtscale`
when training, `dgwtscale - MossyDelTest` when testing. -/
def alphaCycQ1 (cfg : SimCfg) (train : Bool) (dgwtscale : ℚ) (s : WtScales) : WtScales :=
  { s with ca1FmECinAbs := 0, ca1FmCa3Abs := 1,
           ca3FmDgRel := if train then dgwtscale else dgwtscale - cfg.MossyDelTest }

/-- Case 3 of the quarter switch of `Sim.AlphaCyc` (quarter-2→3
transition): CA1 back to ECin drive only. -/
def alphaCycQ3 (s : WtScales) : WtScales :=
  { s with ca1FmECinAbs := 1, ca1FmCa3Abs := 0 }

/-- Post-loop block of `Sim.AlphaCyc`: restore CA3←DG to `dgwtscale` and
set CA1←CA3 absolute scale to 1. -/
def alphaCycEnd (dgwtscale : ℚ) (s : WtScales) : WtScales :=
  { s with ca3FmDgRel := dgwtscale, ca1FmCa3Abs := 1 }

/-- The weight-scale effect of one `Sim.AlphaCyc` trial. -/
def alphaCyc (cfg : SimCfg) (train : Bool) (s : WtScales) : WtScales :=
  let dgwtscale := s.ca3FmDgRel
  alphaCycEnd dgwtscale (alphaCycQ3 (alphaCycQ1 cfg train dgwtscale (alphaCycQ0 cfg s)))

/-- Pre-loop block of `Sim.AlphaCycPreTrain` (no Output←Cortex write). -/
def alphaCycPreTrainQ0 (cfg : SimCfg) (s : WtScales) : WtScales :=
  { s with ca1FmECinAbs := 1, ca1FmCa3Abs := 0,
           ca3FmDgRel := s.ca3FmDgRel - cfg.MossyDel }

/-- The weight-scale effect of one `Sim.AlphaCycPreTrain` trial
(same quarter transitions and restore as the base protocol). -/
def alphaCycPreTrain (cfg : SimCfg) (train : Bool) (s : WtScales) : WtScales :=
  let dgwtscale := s.ca3FmDgRel
  alphaCycEnd dgwtscale (alphaCycQ3 (alphaCycQ1 cfg train dgwtscale (alphaCycPreTrainQ0 cfg s)))

/-- Pre-loop block of `Sim.AlphaCycRP`: also sets Autohid←Autoin. -/
def alphaCycRPQ0 (cfg : SimCfg) (s : WtScales) : WtScales :=
  { s with ca1FmECinAbs := 1, ca1FmCa3Abs := 0, autohidFmAutoinAbs := 1,
           ca3FmDgRel := s.ca3FmDgRel - cfg.MossyDel }

/-- Case 1 of the quarter switch of `Sim.AlphaCycRP` and `Sim.AlphaCycRPAE`:
both the train and the test branch subtract `MossyDelTest`. -/
def alphaCycRPQ1 (cfg : SimCfg) (train : Bool) (dgwtscale : ℚ) (s : WtScales) : WtScales :=
  { s with ca1FmECinAbs := 0, ca1FmCa3Abs := 1,
           ca3FmDgRel := if train then dgwtscale - cfg.MossyDelTest
                         else dgwtscale - cfg.MossyDelTest }

/-- Case 3 of the quarter switch of `Sim.AlphaCycRP` and `Sim.AlphaCycRPAE`:
unlike the base protocol, CA1 stays on CA3 drive (Abs 0 for ECin, 1 for CA3). -/
def alphaCycRPQ3 (s : WtScales) : WtScales :=
  { s with ca1FmECinAbs := 0, ca1FmCa3Abs := 1 }

/-- The weight-scale effect of one `Sim.AlphaCycRP` trial. -/
def alphaCycRP (cfg : SimCfg) (train : Bool) (s : WtScales) : WtScales :=
  let dgwtscale := s.ca3FmDgRel
  alphaCycEnd dgwtscale (alphaCycRPQ3 (alphaCycRPQ1 cfg train dgwtscale (alphaCycRPQ0 cfg s)))

/-- Pre-loop block of `Sim.AlphaCycRPAE`: also zeroes Autohid←ECout. -/
def alphaCycRPAEQ0 (cfg : SimCfg) (s : WtScales) : WtScales :=
  { s with ca1FmECinAbs := 1, ca1FmCa3Abs := 0, autohidFmECoutAbs := 0,
           ca3FmDgRel := s.ca3FmDgRel - cfg.MossyDel }

/-- Case 2 of the quarter switch of `Sim.AlphaCycRPAE`: turns the
Autohid←ECout pathway on. -/
def alphaCycRPAEQ2 (s : WtScales) : WtScales :=
  { s with autohidFmECoutAbs := 1 }

/-- The weight-scale effect of one `Sim.AlphaCycRPAE` trial. -/
def alphaCycRPAE (cfg : SimCfg) (train : Bool) (s : WtScales) : WtScales :=
  let dgwtscale := s.ca3FmDgRel
  alphaCycEnd dgwtscale
    (alphaCycRPQ3 (alphaCycRPAEQ2 (alphaCycRPQ1 cfg train dgwtscale (alphaCycRPAEQ0 cfg s))))

/-- The weight-scale effect of one `Sim.AlphaCycRestudy` trial (pre-loop
block and transitions as in `Sim.AlphaCycPreTrain`). -/
def alphaCycRestudy (cfg : SimCfg) (train : Bool) (s : WtScales) : WtScales :=
  let dgwtscale := s.ca3FmDgRel
  alphaCycEnd dgwtscale (alphaCycQ3 (alphaCycQ1 cfg train dgwtscale (alphaCycPreTrainQ0 cfg s)))

/-- The weight-scale effect of one `Sim.AlphaCycAE` trial: every
weight-scale assignment in that function is commented out. -/
def alphaCycAE (s : WtScales) : WtScales := s

/-
Memory-completion statistics (`Sim.MemStats`).  The layer unit values
read by the function ― `ActM` and `Targ` of the Output layer and `ActQ1`
of the ECin layer ― are passed as lists indexed the way `UnitVal1D`
indexes the flat unit array.
-/

/-- The six counters accumulated by the classification loop of
`Sim.MemStats`. -/
structure MemCounts where
  trgOnWasOffAll : ℚ
  trgOnWasOffCmp : ℚ
  trgOffWasOn : ℚ
  cmpN : ℚ
  trgOnN : ℚ
  trgOffN : ℚ
deriving DecidableEq

/-- The body of the classification loop of `Sim.MemStats` for unit `ni`. -/
def memCountStep (actM trg inact : List ℚ) (c : MemCounts) (ni : ℕ) : MemCounts :=
  let actm := actM.getD ni 0
  let t := trg.getD ni 0
  let ia := inact.getD ni 0
  if t < 1/2 then
    let c := { c with trgOffN := c.trgOffN + 1 }
    if actm > 1/2 then { c with trgOffWasOn := c.trgOffWasOn + 1 } else c
  else
    let c := { c with trgOnN := c.trgOnN + 1 }
    if ia < 1/2 then
      let c := { c with cmpN := c.cmpN + 1 }
      if actm < 1/2 then
        { c with trgOnWasOffAll := c.trgOnWasOffAll + 1,
                 trgOnWasOffCmp := c.trgOnWasOffCmp + 1 }
      else c
    else
      if actm < 1/2 then { c with trgOnWasOffAll := c.trgOnWasOffAll + 1 } else c

/-- The classification loop of `Sim.MemStats` over the first `n` units. -/
def memCountsUpTo (actM trg inact : List ℚ) (n : ℕ) : MemCounts :=
  (List.range n).foldl (memCountStep actM trg inact) ⟨0, 0, 0, 0, 0, 0⟩

/-- The loop bound hard-coded in `Sim.MemStats`: `for ni := 0; ni < 2*49; ni++`. -/
def memStatsN : ℕ := 2 * 49

/-- The counters produced by `Sim.MemStats` (loop over `2*49` units). -/
def memCounts (actM trg inact : List ℚ) : MemCounts :=
  memCountsUpTo actM trg inact memStatsN

/-- The `Sim` statistics fields written by `Sim.MemStats`. -/
structure MemState where
  Mem : ℚ
  TrgOnWasOffAll : ℚ
  TrgOnWasOffCmp : ℚ
  TrgOffWasOn : ℚ
deriving DecidableEq

/-- Function `Sim.MemStats`: classifies units, normalizes the counters and scores
the trial (`memThr` is `ss.MemThr`, `st` the previous statistics state). -/
def memStats (memThr : ℚ) (train : Bool) (actM trg inact : List ℚ)
    (st : MemState) : MemState :=
  let c := memCounts actM trg inact
  let allRate := c.trgOnWasOffAll / c.trgOnN
  let offOn := c.trgOffWasOn / c.trgOffN
  if train then
    { Mem := if allRate < memThr ∧ offOn < memThr then 1 else 0,
      TrgOnWasOffAll := allRate, TrgOnWasOffCmp := c.trgOnWasOffCmp,
      TrgOffWasOn := offOn }
  else if c.cmpN > 0 then
    let cmpRate := c.trgOnWasOffCmp / c.cmpN
    { Mem := if cmpRate < memThr ∧ offOn < memThr then 1 else 0,
      TrgOnWasOffAll := allRate, TrgOnWasOffCmp := cmpRate,
      TrgOffWasOn := offOn }
  else
    { st with TrgOnWasOffAll := allRate, TrgOnWasOffCmp := c.trgOnWasOffCmp,
              TrgOffWasOn := offOn }

/-
Trial-level synaptic-weight model for the delta-application lag.
`Sim.AlphaCyc(train)` touches per-synapse state in exactly two places:
`ss.Net.WtFmDWt()` as its first action when `train`, and `ss.Net.DWt()`
after the quarter loop when `train`; everything in between mutates only
weight scales, clamps, activations and logs.
-/

/-- Modelled from the spec: leabra's `Network.WtFmDWt` (the weight-update
pass, outside src/) folds the accumulated weight delta into the bounded
linear weight and resets the delta — "linear weights updated from
deltas", "`linearWeight` always remains within the configured bound",
"`weightDelta` is zero immediately after being applied". -/
def wtFmDWtSyn (sy : Synapse) : Synapse :=
  { sy with LWt := min 1 (max 0 (sy.LWt + sy.DWt)), DWt := 0 }

/-- One projection together with its sending and receiving layers. -/
structure PrjnCtx where
  pj : CHLPrjn
  slay : Layer
  rlay : Layer

/-- The `Net.WtFmDWt` pass over every projection of the network. -/
def netWtFmDWt (net : List PrjnCtx) : List PrjnCtx :=
  net.map fun p => { p with pj := { p.pj with Syns := p.pj.Syns.map wtFmDWtSyn } }

/-- The `Net.DWt` pass: each projection runs its `CHLPrjn.DWt`. -/
def netDWt (normFm momentFm : ℚ → ℚ → ℚ × ℚ) (prjnDWt : CHLPrjn → CHLPrjn)
    (net : List PrjnCtx) : List PrjnCtx :=
  net.map fun p => { p with pj := p.pj.DWt p.slay p.rlay normFm momentFm prjnDWt }

/-- The synaptic-state effect of one `Sim.AlphaCyc(train)` trial:
`WtFmDWt` first (when training), the quarter loop (no synaptic-state
writes), `DWt` last (when training). -/
def alphaCycSyn (normFm momentFm : ℚ → ℚ → ℚ × ℚ) (prjnDWt : CHLPrjn → CHLPrjn)
    (train : Bool) (net : List PrjnCtx) : List PrjnCtx :=
  let net1 := if train then netWtFmDWt net else net
  if train then netDWt normFm momentFm prjnDWt net1 else net1

/-- The linear weights of every synapse of every projection. -/
def netLWts (net : List PrjnCtx) : List (List ℚ) :=
  net.map fun p => p.pj.Syns.map Synapse.LWt

/-- Well-formed connectivity tables: for every sending neuron the slice
`[SConIdxSt[si], SConIdxSt[si]+SConN[si])` stays inside both the synapse
array and the `SConIdx` table (Go would panic otherwise). -/
def CHLPrjn.SegOK (pj : CHLPrjn) (nNeurons : ℕ) : Prop :=
  ∀ si < nNeurons,
    pj.SConIdxSt.getD si 0 + pj.SConN.getD si 0 ≤ pj.Syns.length ∧
    pj.SConIdxSt.getD si 0 + pj.SConN.getD si 0 ≤ pj.SConIdx.length

instance (pj : CHLPrjn) (n : ℕ) : Decidable (pj.SegOK n) := by
  unfold CHLPrjn.SegOK; infer_instance

/-
Claim-side definitions, used only to compare the code against the
spec's words (refinement / counterexample material).
-/

/-- The counters of the spec's description of `Sim.MemStats`, which
classifies "each output unit": the loop runs over the whole unit array
(`n` units) instead of the hard-coded `2*49`. -/
def memCountsClaimed (actM trg inact : List ℚ) : MemCounts :=
  memCountsUpTo actM trg inact trg.length

/-- Function `Sim.MemStats` as the spec's words describe it: every output unit is
classified and each error count is normalized by its respective
population count (`trgOnN`, `trgOffN`, `cmpN`). -/
def memStatsClaimed (memThr : ℚ) (train : Bool) (actM trg inact : List ℚ)
    (st : MemState) : MemState :=
  let c := memCountsClaimed actM trg inact
  let allRate := c.trgOnWasOffAll / c.trgOnN
  let cmpRate := c.trgOnWasOffCmp / c.cmpN
  let offOn := c.trgOffWasOn / c.trgOffN
  if train then
    { Mem := if allRate < memThr ∧ offOn < memThr then 1 else 0,
      TrgOnWasOffAll := allRate, TrgOnWasOffCmp := cmpRate,
      TrgOffWasOn := offOn }
  else if c.cmpN > 0 then
    { Mem := if cmpRate < memThr ∧ offOn < memThr then 1 else 0,
      TrgOnWasOffAll := allRate, TrgOnWasOffCmp := cmpRate,
      TrgOffWasOn := offOn }
  else
    { st with TrgOnWasOffAll := allRate, TrgOnWasOffCmp := cmpRate,
              TrgOffWasOn := offOn }

/-- The per-unit classification data of the first `memStatsN` units:
(`ActM`, `Targ`, ECin `ActQ1`) triples. -/
def memTriples (actM trg inact : List ℚ) : List (ℚ × ℚ × ℚ) :=
  (List.range memStatsN).map fun ni => (actM.getD ni 0, trg.getD ni 0, inact.getD ni 0)

/-- Bucket sizes over a list of per-unit (`ActM`, `Targ`, `ActQ1`)
triples: each counter is the number of units falling in the
corresponding classification bucket. -/
def memBucketsOf (l : List (ℚ × ℚ × ℚ)) : MemCounts :=
  { trgOnWasOffAll := l.countP fun p => !decide (p.2.1 < 1/2) && decide (p.1 < 1/2),
    trgOnWasOffCmp := l.countP fun p =>
      !decide (p.2.1 < 1/2) && (decide (p.2.2 < 1/2) && decide (p.1 < 1/2)),
    trgOffWasOn := l.countP fun p => decide (p.2.1 < 1/2) && decide (p.1 > 1/2),
    cmpN := l.countP fun p => !decide (p.2.1 < 1/2) && decide (p.2.2 < 1/2),
    trgOnN := l.countP fun p => !decide (p.2.1 < 1/2),
    trgOffN := l.countP fun p => decide (p.2.1 < 1/2) }

/-- The counters as bucket sizes: each counter of the classification loop
is the number of scanned units falling in the corresponding bucket. -/
def memCountsBuckets (actM trg inact : List ℚ) : MemCounts :=
  memBucketsOf (memTriples actM trg inact)

/-- Fieldwise sum of two counter records (proof helper). -/
def memAdd (c d : MemCounts) : MemCounts :=
  ⟨c.trgOnWasOffAll + d.trgOnWasOffAll, c.trgOnWasOffCmp + d.trgOnWasOffCmp,
   c.trgOffWasOn + d.trgOffWasOn, c.cmpN + d.cmpN, c.trgOnN + d.trgOnN,
   c.trgOffN + d.trgOffN⟩

/-- The counter increments contributed by one scanned unit with values
`actm`, `t`, `ia` (proof helper). -/
def memBump (actm t ia : ℚ) : MemCounts :=
  if t < 1/2 then
    if actm > 1/2 then ⟨0, 0, 1, 0, 0, 1⟩ else ⟨0, 0, 0, 0, 0, 1⟩
  else if ia < 1/2 then
    if actm < 1/2 then ⟨1, 1, 0, 1, 1, 0⟩ else ⟨0, 0, 0, 1, 1, 0⟩
  else if actm < 1/2 then ⟨1, 0, 0, 0, 1, 0⟩ else ⟨0, 0, 0, 0, 1, 0⟩

/-- Fieldwise natural multiple of a counter record (proof helper). -/
def memSMul (n : ℕ) (d : MemCounts) : MemCounts :=
  ⟨n * d.trgOnWasOffAll, n * d.trgOnWasOffCmp, n * d.trgOffWasOn,
   n * d.cmpN, n * d.trgOnN, n * d.trgOffN⟩

/-- Concrete Output-layer `ActM` pattern, 294 units (the Output layer of
the configured network is 3×2 pools of 7×7): units 0–48 and unit 98
active, the rest silent. -/
def ctrexActM : List ℚ :=
  List.replicate 49 1 ++ List.replicate 49 0 ++ [1] ++ List.replicate 195 0

/-- Concrete Output-layer target pattern, 294 units: units 0–48 on. -/
def ctrexTrg : List ℚ := List.replicate 49 1 ++ List.replicate 245 0

/-- Concrete ECin quarter-1 activation pattern, 294 units, all on
(no completion bits). -/
def ctrexECin : List ℚ := List.replicate 294 1

/-
Helper lemmas: evaluating the classification fold of `Sim.MemStats`
blockwise, so that concrete inputs can be computed without unfolding a
98-iteration fold literally.
-/

/-- Reading a replicated list within bounds yields the replicated value. -/
theorem getD_replicate_lt {α : Type} (n i : ℕ) (x d : α) (h : i < n) :
    (List.replicate n x).getD i d = x := by
  induction n generalizing i with
  | zero => exact absurd h (Nat.not_lt_zero i)
  | succ n ih =>
      cases i with
      | zero => simp [List.replicate_succ]
      | succ i => simpa [List.replicate_succ] using ih i (Nat.lt_of_succ_lt_succ h)

/-- Reading a replicated list at any index with the replicated value as
default always yields that value. -/
theorem getD_replicate_self {α : Type} (n i : ℕ) (x : α) :
    (List.replicate n x).getD i x = x := by
  rcases lt_or_le i n with h | h
  · exact getD_replicate_lt n i x x h
  · exact List.getD_eq_default _ _ (by simp [h])

/-- One classification step adds the unit's bucket increments. -/
theorem memCountStep_eq_add (a t ia : List ℚ) (c : MemCounts) (ni : ℕ) :
    memCountStep a t ia c ni
      = memAdd c (memBump (a.getD ni 0) (t.getD ni 0) (ia.getD ni 0)) := by
  simp only [memCountStep, memBump, memAdd]
  split_ifs <;> simp

/-- Folding the classification step over indices whose unit values are
constant adds that many copies of the same bucket increment. -/
theorem foldl_memCountStep_const (a t ia : List ℚ) (x y z : ℚ) (l : List ℕ)
    (c : MemCounts)
    (h : ∀ i ∈ l, a.getD i 0 = x ∧ t.getD i 0 = y ∧ ia.getD i 0 = z) :
    l.foldl (memCountStep a t ia) c = memAdd c (memSMul l.length (memBump x y z)) := by
  induction l generalizing c with
  | nil => simp [memAdd, memSMul]
  | cons i l ih =>
      have hi := h i (List.mem_cons_self i l)
      rw [List.foldl_cons, memCountStep_eq_add, hi.1, hi.2.1, hi.2.2,
        ih _ (fun j hj => h j (List.mem_cons_of_mem i hj))]
      rcases memBump x y z with ⟨b1, b2, b3, b4, b5, b6⟩
      refine MemCounts.mk.injEq .. ▸ ⟨?_, ?_, ?_, ?_, ?_, ?_⟩ <;>
        simp [memAdd, memSMul] <;> ring

/-- Splitting the classification fold at an intermediate index. -/
theorem memCountsUpTo_add (a t ia : List ℚ) (m n : ℕ) :
    memCountsUpTo a t ia (m + n)
      = ((List.range n).map (fun x => m + x)).foldl (memCountStep a t ia)
          (memCountsUpTo a t ia m) := by
  unfold memCountsUpTo
  rw [List.range_add, List.foldl_append]

/-- Appending one unit's triple to the bucket counts adds its increments. -/
theorem memBucketsOf_append_single (L : List (ℚ × ℚ × ℚ)) (p : ℚ × ℚ × ℚ) :
    memBucketsOf (L ++ [p]) = memAdd (memBucketsOf L) (memBump p.1 p.2.1 p.2.2) := by
  obtain ⟨x, y, z⟩ := p
  simp only [memBucketsOf, memBump, memAdd, List.countP_append]
  split_ifs <;>
    refine MemCounts.mk.injEq .. ▸ ⟨?_, ?_, ?_, ?_, ?_, ?_⟩ <;>
    simp [List.countP_cons, *] <;>
    (first
      | (intros; linarith [inv_eq_one_div (2 : ℚ)])
      | (constructor <;> (intros; first
          | linarith [inv_eq_one_div (2 : ℚ)]
          | (constructor <;> (intros; linarith [inv_eq_one_div (2 : ℚ)])))))

/-- The classification fold over the first `n` units equals the bucket
counts of the first `n` (`ActM`, `Targ`, `ActQ1`) triples. -/
theorem memCountsUpTo_eq_buckets (a t ia : List ℚ) (n : ℕ) :
    memCountsUpTo a t ia n
      = memBucketsOf ((List.range n).map fun ni => (a.getD ni 0, t.getD ni 0, ia.getD ni 0)) := by
  induction n with
  | zero => simp [memCountsUpTo, memBucketsOf]
  | succ n ih =>
      have hfold : memCountsUpTo a t ia (n + 1)
          = memCountStep a t ia (memCountsUpTo a t ia n) n := by
        unfold memCountsUpTo
        rw [List.range_succ, List.foldl_append, List.foldl_cons, List.foldl_nil]
      rw [hfold, ih, memCountStep_eq_add, List.range_succ, List.map_append, List.map_cons,
        List.map_nil, memBucketsOf_append_single]

/-
Theorems for the claims.
-/

/-- Claim C3: immediately after every call to the CHL parameter-update
entry point (`CHLParams.Update`, as invoked directly, from
`CHLPrjn.UpdateParams`, and from `Defaults`), the error-driven mixing
coefficient `Err` equals exactly `1 - Hebb`, for every value of `Hebb`
(hence in particular for every value in `[0,1]`); these operations never
set `Err` independently of `Hebb`. -/
theorem update_err_eq_one_sub_hebb (ch : CHLParams) (pj : CHLPrjn)
    (prjnUpdate : LearnParams → LearnParams) :
    ch.Update.Err = 1 - ch.Update.Hebb
    ∧ (pj.UpdateParams prjnUpdate).CHL.Err = 1 - (pj.UpdateParams prjnUpdate).CHL.Hebb
    ∧ ch.Defaults.Err = 1 - ch.Defaults.Hebb := by
  refine ⟨rfl, ?_, rfl⟩
  unfold CHLPrjn.UpdateParams
  dsimp only
  split <;> rfl

/-- Claim C10: in `CHLParams.MinusAct` the `MinusQ1` flag takes
precedence over `MinusQ2`: when both are true the quarter-1 activation
is returned; the quarter-2 activation is returned only when `MinusQ2`
is true and `MinusQ1` false; when both are false the settled minus-phase
activation `ActM` is returned. -/
theorem minusAct_q1_precedence (ch : CHLParams) (actM actQ1 actQ2 : ℚ) :
    (ch.MinusQ1 = true → ch.MinusQ2 = true → ch.MinusAct actM actQ1 actQ2 = actQ1)
    ∧ (ch.MinusQ1 = false → ch.MinusQ2 = true → ch.MinusAct actM actQ1 actQ2 = actQ2)
    ∧ (ch.MinusQ1 = false → ch.MinusQ2 = false → ch.MinusAct actM actQ1 actQ2 = actM) :=
  ⟨fun h1 _ => by simp [CHLParams.MinusAct, h1],
   fun h1 h2 => by simp [CHLParams.MinusAct, h1, h2],
   fun h1 h2 => by simp [CHLParams.MinusAct, h1, h2]⟩

/-- Witness for the C10 theorem at concrete flag settings. -/
theorem minusAct_q1_precedence_witness :
    CHLParams.MinusAct ⟨true, 0, 1, true, true, 0, 0⟩ 3 5 7 = 5
    ∧ CHLParams.MinusAct ⟨true, 0, 1, false, true, 0, 0⟩ 3 5 7 = 7
    ∧ CHLParams.MinusAct ⟨true, 0, 1, false, false, 0, 0⟩ 3 5 7 = 3 :=
  ⟨(minusAct_q1_precedence ⟨true, 0, 1, true, true, 0, 0⟩ 3 5 7).1 rfl rfl,
   (minusAct_q1_precedence ⟨true, 0, 1, false, true, 0, 0⟩ 3 5 7).2.1 rfl rfl,
   (minusAct_q1_precedence ⟨true, 0, 1, false, false, 0, 0⟩ 3 5 7).2.2 rfl rfl⟩

/-- Claim C2: the hebbian term computed by the CHL pass — `HebbDWt`
applied to the correction factor `SAvgCor` of the sending layer — equals
`rActP * (sActP*(correctionFactor - linearWeight) - (1 - sActP)*linearWeight)`
with `correctionFactor = 0.5 / max(SAvgThr, 0.5 + SAvgCor*(ActPAvgEff - 0.5))`
computed from the sending layer's plus-phase average activation; and
(norm and momentum off, so the combined delta is exposed) each synapse
update of the pass accumulates exactly that hebbian term. -/
theorem hebb_term_formula (pj : CHLPrjn) (slay : Layer) (sact ract linWt : ℚ)
    (normFm momentFm : ℚ → ℚ → ℚ × ℚ) (snActM : ℚ) (sn rn : Neuron) (sy : Synapse)
    (hn : pj.Learn.NormOn = false) (hm : pj.Learn.MomentumOn = false) :
    pj.CHL.HebbDWt sact ract (pj.SAvgCor slay) linWt
      = ract * (sact * ((1/2) / max pj.CHL.SAvgThr (1/2 + pj.CHL.SAvgCor * (slay.ActPAvgEff - 1/2))
            - linWt)
          - (1 - sact) * linWt)
    ∧ (chlSynStep pj.CHL pj.Learn normFm momentFm (pj.SAvgCor slay) snActM sn rn sy).DWt
      = sy.DWt + pj.Learn.Lrate *
          (pj.CHL.Hebb * (rn.ActP * (sn.ActP *
              ((1/2) / max pj.CHL.SAvgThr (1/2 + pj.CHL.SAvgCor * (slay.ActPAvgEff - 1/2))
                - sy.LWt)
            - (1 - sn.ActP) * sy.LWt))
           + pj.CHL.Err * pj.CHL.ErrDWt sn.ActP snActM rn.ActP
               (pj.CHL.MinusAct rn.ActM rn.ActQ1 rn.ActQ2) sy.LWt) := by
  refine ⟨rfl, ?_⟩
  simp [chlSynStep, hn, hm, CHLParams.DWt, CHLParams.HebbDWt, CHLPrjn.SAvgCor]

/-- Witness for the C2 theorem at a concrete synapse: with `SAvgCor` 0.4,
`SAvgThr` 0.001 and a sending layer at full effective plus-phase average,
the correction factor is `0.5/0.7 = 5/7` and the accumulated delta is
`0.1 * (0.01*(5/7 - 1/2) + 0.99*(1 - 1/2)) = 87/1750`. -/
theorem hebb_term_formula_witness :
    (chlSynStep ⟨true, 1/100, 99/100, false, false, 2/5, 1/1000⟩
        ⟨true, 1/10, false, false, false⟩ (fun a b => (a, b)) (fun a b => (a, b))
        (CHLPrjn.SAvgCor ⟨⟨true, 1/100, 99/100, false, false, 2/5, 1/1000⟩,
          ⟨true, 1/10, false, false, false⟩, [1], [0], [0], [⟨1/2, 0, 0, 0⟩]⟩
          ⟨[⟨0, 0, 0, 1⟩], 1, 1⟩)
        0 ⟨0, 0, 0, 1⟩ ⟨0, 0, 0, 1⟩ ⟨1/2, 0, 0, 0⟩).DWt = 87/1750 := by
  have h := (hebb_term_formula
    ⟨⟨true, 1/100, 99/100, false, false, 2/5, 1/1000⟩,
     ⟨true, 1/10, false, false, false⟩, [1], [0], [0], [⟨1/2, 0, 0, 0⟩]⟩
    ⟨[⟨0, 0, 0, 1⟩], 1, 1⟩ 0 0 0
    (fun a b => (a, b)) (fun a b => (a, b))
    0 ⟨0, 0, 0, 1⟩ ⟨0, 0, 0, 1⟩ ⟨1/2, 0, 0, 0⟩ rfl rfl).2
  rw [h, max_eq_right (by norm_num : (1/1000 : ℚ) ≤ 1/2 + 2/5 * ((1 : ℚ) - 1/2))]
  norm_num [CHLParams.ErrDWt, CHLParams.MinusAct]

/-- Claim C4: `CHLPrjn.DWt` leaves the projection (in particular every
synapse and its accumulated `DWt`) unchanged when `Learn` is false, and
with CHL on the CHL pass leaves the projection unchanged when the
sending layer's plus-phase average activation is below `SAvgThr`. -/
theorem dwt_skip_conditions (pj : CHLPrjn) (slay rlay : Layer)
    (normFm momentFm : ℚ → ℚ → ℚ × ℚ) (prjnDWt : CHLPrjn → CHLPrjn) :
    (pj.Learn.Learn = false → pj.DWt slay rlay normFm momentFm prjnDWt = pj)
    ∧ (slay.ActPAvg < pj.CHL.SAvgThr → pj.DWtCHL slay rlay normFm momentFm = pj)
    ∧ (pj.CHL.On = true → slay.ActPAvg < pj.CHL.SAvgThr →
        pj.DWt slay rlay normFm momentFm prjnDWt = pj) := by
  refine ⟨fun h => ?_, fun h => ?_, fun h1 h2 => ?_⟩
  · simp [CHLPrjn.DWt, h]
  · simp [CHLPrjn.DWtCHL, h]
  · simp [CHLPrjn.DWt, CHLPrjn.DWtCHL, h1, h2]

/-- Witness for the C4 theorem: a projection with learning off is left
unchanged, and one with a sub-threshold sending layer is left unchanged
by the CHL pass. -/
theorem dwt_skip_conditions_witness :
    CHLPrjn.DWt ⟨⟨true, 0, 1, false, false, 2/5, 1/1000⟩, ⟨false, 1/10, false, false, false⟩,
        [1], [0], [0], [⟨1/2, 0, 0, 0⟩]⟩ ⟨[⟨0, 0, 0, 1⟩], 1, 1⟩ ⟨[⟨0, 0, 0, 1⟩], 1, 1⟩
        (fun a b => (a, b)) (fun a b => (a, b)) id
      = ⟨⟨true, 0, 1, false, false, 2/5, 1/1000⟩, ⟨false, 1/10, false, false, false⟩,
        [1], [0], [0], [⟨1/2, 0, 0, 0⟩]⟩
    ∧ CHLPrjn.DWtCHL ⟨⟨true, 0, 1, false, false, 2/5, 1/1000⟩, ⟨true, 1/10, false, false, false⟩,
        [1], [0], [0], [⟨1/2, 0, 0, 0⟩]⟩ ⟨[⟨0, 0, 0, 1⟩], 0, 0⟩ ⟨[⟨0, 0, 0, 1⟩], 0, 0⟩
        (fun a b => (a, b)) (fun a b => (a, b))
      = ⟨⟨true, 0, 1, false, false, 2/5, 1/1000⟩, ⟨true, 1/10, false, false, false⟩,
        [1], [0], [0], [⟨1/2, 0, 0, 0⟩]⟩ :=
  ⟨(dwt_skip_conditions _ ⟨[⟨0, 0, 0, 1⟩], 1, 1⟩ ⟨[⟨0, 0, 0, 1⟩], 1, 1⟩
      (fun a b => (a, b)) (fun a b => (a, b)) id).1 rfl,
   (dwt_skip_conditions _ ⟨[⟨0, 0, 0, 1⟩], 0, 0⟩ ⟨[⟨0, 0, 0, 1⟩], 0, 0⟩
      (fun a b => (a, b)) (fun a b => (a, b)) id).2.1 (by norm_num)⟩

/-- Claim C5: at the quarter-0→1 transition of the base `Sim.AlphaCyc`
(phase `alphaCycQ1` applied to the post-`alphaCycQ0` state, with
`dgwtscale` captured from the pre-trial state), the CA1←ECin absolute
scale is 0, the CA1←CA3 absolute scale is 1, and the CA3←DG relative
scale is the full pre-trial baseline when training and baseline minus
`MossyDelTest` when testing. -/
theorem alphaCyc_q1_transition (cfg : SimCfg) (train : Bool) (s : WtScales) :
    (alphaCycQ1 cfg train s.ca3FmDgRel (alphaCycQ0 cfg s)).ca1FmECinAbs = 0
    ∧ (alphaCycQ1 cfg train s.ca3FmDgRel (alphaCycQ0 cfg s)).ca1FmCa3Abs = 1
    ∧ (alphaCycQ1 cfg train s.ca3FmDgRel (alphaCycQ0 cfg s)).ca3FmDgRel
        = (if train then s.ca3FmDgRel else s.ca3FmDgRel - cfg.MossyDelTest) :=
  ⟨rfl, rfl, rfl⟩

/-- Indexing the CHL pass: with normalization off, the sending-neuron
loop iteration for `si` leaves, at position `SConIdxSt[si] + ci` of the
synapse array, exactly `chlSynStep` of the synapse previously there,
with the receiving neuron given by `SConIdx[SConIdxSt[si] + ci]`, the
minus-phase and plus-phase activations of sending neuron `si`, and the
sending-average correction factor of the sending layer. -/
theorem dwtCHLStep_getD (pj : CHLPrjn) (slay rlay : Layer)
    (nf mf : ℚ → ℚ → ℚ × ℚ) (syns : List Synapse) (si ci : ℕ)
    (hN : pj.Learn.NormOn = false)
    (hlen : pj.SConIdxSt.getD si 0 + pj.SConN.getD si 0 ≤ syns.length)
    (hidx : pj.SConIdxSt.getD si 0 + pj.SConN.getD si 0 ≤ pj.SConIdx.length)
    (hci : ci < pj.SConN.getD si 0) :
    (dwtCHLStep pj slay rlay nf mf syns si).getD (pj.SConIdxSt.getD si 0 + ci) default
      = chlSynStep pj.CHL pj.Learn nf mf (pj.SAvgCor slay)
          (pj.CHL.MinusAct (slay.Neurons.getD si default).ActM
            (slay.Neurons.getD si default).ActQ1 (slay.Neurons.getD si default).ActQ2)
          (slay.Neurons.getD si default)
          (rlay.Neurons.getD (pj.SConIdx.getD (pj.SConIdxSt.getD si 0 + ci) 0) default)
          (syns.getD (pj.SConIdxSt.getD si 0 + ci) default) := by
  have hseglen : ((syns.drop (pj.SConIdxSt.getD si 0)).take (pj.SConN.getD si 0)).length
      = pj.SConN.getD si 0 := by
    rw [List.length_take, List.length_drop]
    omega
  have hsconslen :
      ((pj.SConIdx.drop (pj.SConIdxSt.getD si 0)).take (pj.SConN.getD si 0)).length
        = pj.SConN.getD si 0 := by
    rw [List.length_take, List.length_drop]
    omega
  have hziplen : (((syns.drop (pj.SConIdxSt.getD si 0)).take (pj.SConN.getD si 0)).zip
      ((pj.SConIdx.drop (pj.SConIdxSt.getD si 0)).take (pj.SConN.getD si 0))).length
        = pj.SConN.getD si 0 := by
    rw [List.length_zip, hseglen, hsconslen, min_self]
  have hst : pj.SConIdxSt.getD si 0 ≤ syns.length := le_trans (Nat.le_add_right _ _) hlen
  have htakelen : (syns.take (pj.SConIdxSt.getD si 0)).length = pj.SConIdxSt.getD si 0 := by
    rw [List.length_take]
    omega
  unfold dwtCHLStep
  simp only [chlSegStep, hN, Bool.false_eq_true, if_false]
  rw [List.getD_eq_getElem?_getD, List.getElem?_append, if_pos (by
      simp only [List.length_append, htakelen, List.length_map, hziplen]
      omega),
    List.getElem?_append_right (by rw [htakelen]; exact Nat.le_add_right _ _),
    htakelen, Nat.add_sub_cancel_left, List.getElem?_map,
    List.getElem?_eq_getElem (by rw [hziplen]; exact hci)]
  simp only [Option.map_some', Option.getD_some]
  rw [List.getElem_zip]
  simp only [List.getElem_take, List.getElem_drop]
  rw [List.getD_eq_getElem pj.SConIdx 0 (by omega),
    List.getD_eq_getElem syns default (by omega)]

/-- Claim C1: with normalization and momentum disabled, the CHL pass
updates the synapse at position `SConIdxSt[si] + ci` to exactly
`chlSynStep` of its old value, the per-neuron section of the pass is the
plain elementwise `chlSynStep` map (no norm broadcast), the error term
is `(rActP*sActP) - (rActM*sActM)` soft-bounded by `(1 - linearWeight)`
when positive and by `linearWeight` otherwise, and each updated
synapse's `DWt` grows by exactly `Lrate * (Hebb*hebb + Err*err)`. -/
theorem chl_dwt_accumulation (pj : CHLPrjn) (slay rlay : Layer)
    (normFm momentFm : ℚ → ℚ → ℚ × ℚ) (savgCor snActM : ℚ)
    (sn rn : Neuron) (rns : List Neuron) (sy : Synapse)
    (seg : List Synapse) (scons : List ℕ) (syns : List Synapse) (si ci : ℕ)
    (hn : pj.Learn.NormOn = false) (hm : pj.Learn.MomentumOn = false) :
    (pj.SConIdxSt.getD si 0 + pj.SConN.getD si 0 ≤ syns.length →
     pj.SConIdxSt.getD si 0 + pj.SConN.getD si 0 ≤ pj.SConIdx.length →
     ci < pj.SConN.getD si 0 →
     (dwtCHLStep pj slay rlay normFm momentFm syns si).getD
         (pj.SConIdxSt.getD si 0 + ci) default
       = chlSynStep pj.CHL pj.Learn normFm momentFm (pj.SAvgCor slay)
           (pj.CHL.MinusAct (slay.Neurons.getD si default).ActM
             (slay.Neurons.getD si default).ActQ1 (slay.Neurons.getD si default).ActQ2)
           (slay.Neurons.getD si default)
           (rlay.Neurons.getD (pj.SConIdx.getD (pj.SConIdxSt.getD si 0 + ci) 0) default)
           (syns.getD (pj.SConIdxSt.getD si 0 + ci) default))
    ∧ chlSegStep pj.CHL pj.Learn normFm momentFm savgCor snActM sn rns seg scons
      = (seg.zip scons).map (fun p =>
          chlSynStep pj.CHL pj.Learn normFm momentFm savgCor snActM sn
            (rns.getD p.2 default) p.1)
    ∧ pj.CHL.ErrDWt sn.ActP snActM rn.ActP
        (pj.CHL.MinusAct rn.ActM rn.ActQ1 rn.ActQ2) sy.LWt
      = (if rn.ActP * sn.ActP - pj.CHL.MinusAct rn.ActM rn.ActQ1 rn.ActQ2 * snActM > 0
         then (rn.ActP * sn.ActP - pj.CHL.MinusAct rn.ActM rn.ActQ1 rn.ActQ2 * snActM)
              * (1 - sy.LWt)
         else (rn.ActP * sn.ActP - pj.CHL.MinusAct rn.ActM rn.ActQ1 rn.ActQ2 * snActM)
              * sy.LWt)
    ∧ (chlSynStep pj.CHL pj.Learn normFm momentFm savgCor snActM sn rn sy).DWt
      = sy.DWt + pj.Learn.Lrate *
          (pj.CHL.Hebb * pj.CHL.HebbDWt sn.ActP rn.ActP savgCor sy.LWt
           + pj.CHL.Err * pj.CHL.ErrDWt sn.ActP snActM rn.ActP
               (pj.CHL.MinusAct rn.ActM rn.ActQ1 rn.ActQ2) sy.LWt) := by
  refine ⟨fun h1 h2 h3 => dwtCHLStep_getD pj slay rlay normFm momentFm syns si ci hn h1 h2 h3,
    ?_, rfl, ?_⟩
  · simp [chlSegStep, hn]
  · simp [chlSynStep, hn, hm, CHLParams.DWt]

/-- Witness for the C1 theorem at a concrete one-synapse projection
(Hebb = 0.01, Err = 0.99, Lrate = 0.1, both activations fully on in the
plus phase, off in the minus phase, linear weight 1/2): the delta is
1/20. -/
theorem chl_dwt_accumulation_witness :
    (chlSynStep ⟨true, 1/100, 99/100, false, false, 2/5, 1/1000⟩
        ⟨true, 1/10, false, false, false⟩ (fun a b => (a, b)) (fun a b => (a, b))
        1 0 ⟨0, 0, 0, 1⟩ ⟨0, 0, 0, 1⟩ ⟨1/2, 0, 0, 0⟩).DWt = 1/20 := by
  have h := (chl_dwt_accumulation
    ⟨⟨true, 1/100, 99/100, false, false, 2/5, 1/1000⟩,
     ⟨true, 1/10, false, false, false⟩, [1], [0], [0], [⟨1/2, 0, 0, 0⟩]⟩
    ⟨[⟨0, 0, 0, 1⟩], 1, 1⟩ ⟨[⟨0, 0, 0, 1⟩], 1, 1⟩
    (fun a b => (a, b)) (fun a b => (a, b))
    1 0 ⟨0, 0, 0, 1⟩ ⟨0, 0, 0, 1⟩ [] ⟨1/2, 0, 0, 0⟩ [] [] [⟨1/2, 0, 0, 0⟩] 0 0
    rfl rfl).2.2.2
  rw [h]
  norm_num [CHLParams.HebbDWt, CHLParams.ErrDWt, CHLParams.MinusAct]

/-- Claim C7 as stated is false: in the base `Sim.AlphaCyc` the
Output←Cortex relative weight scale is mutated during the trial (set to
0.5 with `Hiponly` false) and is not restored on return; starting from
its Base-parameter-sheet value 1 (with `MossyDel` 4, `MossyDelTest` 3),
the post-trial value 1/2 differs from the pre-trial value 1. -/
theorem wtscale_restoration_counterexample :
    (alphaCyc ⟨4, 3, false⟩ true ⟨1, 1, 4, 1, 1, 1⟩).outputFmCortexRel
      ≠ (⟨1, 1, 4, 1, 1, 1⟩ : WtScales).outputFmCortexRel := by
  norm_num [alphaCyc, alphaCycEnd, alphaCycQ3, alphaCycQ1, alphaCycQ0]

/-- Claim C7 amended: in every alpha-cycle variant the CA3←DG relative
scale is restored to its pre-trial value on return, but the other
mutated scales end at protocol-determined constants regardless of their
pre-trial values: CA1←CA3 absolute ends at 1 in every variant that
touches it; CA1←ECin absolute ends at 1 in the base, pre-train and
restudy variants but at 0 in the RP and RPAE variants; Output←Cortex
relative ends at 0 (`Hiponly`) or 0.5 in the base variant; the
autoencoder input scales end at 1 in the RP and RPAE variants; the AE
variant mutates no weight scale. -/
theorem wtscale_post_trial_values (cfg : SimCfg) (train : Bool) (s : WtScales) :
    alphaCyc cfg train s
      = { s with ca1FmECinAbs := 1, ca1FmCa3Abs := 1,
                 outputFmCortexRel := if cfg.Hiponly then 0 else 1/2 }
    ∧ alphaCycPreTrain cfg train s = { s with ca1FmECinAbs := 1, ca1FmCa3Abs := 1 }
    ∧ alphaCycRP cfg train s
      = { s with ca1FmECinAbs := 0, ca1FmCa3Abs := 1, autohidFmAutoinAbs := 1 }
    ∧ alphaCycRPAE cfg train s
      = { s with ca1FmECinAbs := 0, ca1FmCa3Abs := 1, autohidFmECoutAbs := 1 }
    ∧ alphaCycRestudy cfg train s = { s with ca1FmECinAbs := 1, ca1FmCa3Abs := 1 }
    ∧ alphaCycAE s = s := by
  obtain ⟨md, mdt, hip⟩ := cfg
  cases hip <;> cases train <;> exact ⟨rfl, rfl, rfl, rfl, rfl, rfl⟩

/-- Claim C9: `Sim.MemStats` sets `Mem = 1` iff both the false-positive
rate and the applicable false-negative rate (all-bits in training mode,
completion-only in test mode) are strictly below `MemThr`, and `Mem = 0`
otherwise — except that in test mode with `cmpN = 0` the previous `Mem`
is kept.  The positivity hypotheses on `trgOnN` and `trgOffN` keep the
rational model aligned with the float code (0/0 is NaN in Go, 0 in ℚ). -/
theorem memStats_mem_score (memThr : ℚ) (train : Bool) (actM trg inact : List ℚ)
    (st : MemState)
    (_hOn : 0 < (memCounts actM trg inact).trgOnN)
    (_hOff : 0 < (memCounts actM trg inact).trgOffN) :
    (train = true →
      (memStats memThr train actM trg inact st).Mem
        = if (memCounts actM trg inact).trgOnWasOffAll / (memCounts actM trg inact).trgOnN < memThr
            ∧ (memCounts actM trg inact).trgOffWasOn / (memCounts actM trg inact).trgOffN < memThr
          then 1 else 0)
    ∧ (train = false → 0 < (memCounts actM trg inact).cmpN →
      (memStats memThr train actM trg inact st).Mem
        = if (memCounts actM trg inact).trgOnWasOffCmp / (memCounts actM trg inact).cmpN < memThr
            ∧ (memCounts actM trg inact).trgOffWasOn / (memCounts actM trg inact).trgOffN < memThr
          then 1 else 0)
    ∧ (train = false → (memCounts actM trg inact).cmpN = 0 →
      (memStats memThr train actM trg inact st).Mem = st.Mem) := by
  refine ⟨fun ht => ?_, fun ht hc => ?_, fun ht hc => ?_⟩
  · subst ht; simp [memStats]
  · subst ht; simp [memStats, hc]
  · subst ht; simp [memStats, hc]

/-- Witness for the C9 theorem: a train-mode pattern whose single given
target-on unit is recalled and whose 97 remaining scanned units are
correctly silent scores `Mem = 1` at threshold 0.34. -/
theorem memStats_mem_score_witness :
    (memStats (34/100) true [1] [1] [1] ⟨5, 5, 5, 5⟩).Mem = 1 := by
  have e1 : memCounts [1] [1] [1] = ⟨0, 0, 0, 0, 1, 97⟩ := by
    have hsplit : memStatsN = 1 + 97 := rfl
    rw [memCounts, hsplit, memCountsUpTo_add,
      foldl_memCountStep_const _ _ _ 0 0 0 _ _ (by
        intro i hi
        simp only [List.mem_map, List.mem_range] at hi
        obtain ⟨j, _, rfl⟩ := hi
        have h1 : (1 : ℕ) ≤ 1 + j := Nat.le_add_right 1 j
        exact ⟨List.getD_eq_default _ _ (by simp),
          List.getD_eq_default _ _ (by simp),
          List.getD_eq_default _ _ (by simp)⟩),
      memCountsUpTo,
      foldl_memCountStep_const _ _ _ 1 1 1 _ _ (by
        intro i hi
        rw [List.mem_range] at hi
        interval_cases i
        exact ⟨rfl, rfl, rfl⟩)]
    norm_num [memAdd, memSMul, memBump]
  have h := (memStats_mem_score (34/100) true [1] [1] [1] ⟨5, 5, 5, 5⟩
    (by rw [e1]; norm_num) (by rw [e1]; norm_num)).1 rfl
  rw [h, e1]
  norm_num

/-- Claim C8 amended: `Sim.MemStats` classifies the first `2*49 = 98`
output units (a hard-coded bound, not the whole 294-unit Output layer):
for each scanned unit it binarizes the target and the settled
minus-phase activation at threshold 0.5, its counters are exactly the
bucket sizes over those 98 (`ActM`, `Targ`, ECin `ActQ1`) triples, and
it normalizes the all-bits false-negative count by `trgOnN` and the
false-positive count by `trgOffN` always, but the completion count by
`cmpN` only in test mode with `cmpN > 0` (in train mode, and in test
mode with `cmpN = 0`, the stored completion figure is the raw count). -/
theorem memStats_classification (memThr : ℚ) (train : Bool) (actM trg inact : List ℚ)
    (st : MemState) :
    memCounts actM trg inact = memCountsBuckets actM trg inact
    ∧ (memStats memThr train actM trg inact st).TrgOnWasOffAll
        = (memCounts actM trg inact).trgOnWasOffAll / (memCounts actM trg inact).trgOnN
    ∧ (memStats memThr train actM trg inact st).TrgOffWasOn
        = (memCounts actM trg inact).trgOffWasOn / (memCounts actM trg inact).trgOffN
    ∧ (train = false → 0 < (memCounts actM trg inact).cmpN →
        (memStats memThr train actM trg inact st).TrgOnWasOffCmp
          = (memCounts actM trg inact).trgOnWasOffCmp / (memCounts actM trg inact).cmpN)
    ∧ (train = true ∨ (memCounts actM trg inact).cmpN = 0 →
        (memStats memThr train actM trg inact st).TrgOnWasOffCmp
          = (memCounts actM trg inact).trgOnWasOffCmp) := by
  refine ⟨?_, ?_, ?_, fun ht hc => ?_, fun h => ?_⟩
  · rw [memCounts, memCountsUpTo_eq_buckets]
    rfl
  · cases train <;> (simp [memStats]; try (split_ifs <;> rfl))
  · cases train <;> (simp [memStats]; try (split_ifs <;> rfl))
  · subst ht; simp [memStats, hc]
  · rcases h with h | h
    · subst h; simp [memStats]
    · cases train
      · simp [memStats, h]
      · simp [memStats]

/-- Witness for the C8 amended theorem at a concrete test-mode input
whose single scanned target-on unit is a completion bit that was missed:
the stored completion figure is the normalized rate 1/1 = 1. -/
theorem memStats_classification_witness :
    (memStats (34/100) false [] [1] [0] ⟨5, 5, 5, 5⟩).TrgOnWasOffCmp = 1 := by
  have e1 : memCounts [] [1] [0] = ⟨1, 1, 0, 1, 1, 97⟩ := by
    have hsplit : memStatsN = 1 + 97 := rfl
    rw [memCounts, hsplit, memCountsUpTo_add,
      foldl_memCountStep_const _ _ _ 0 0 0 _ _ (by
        intro i hi
        simp only [List.mem_map, List.mem_range] at hi
        obtain ⟨j, _, rfl⟩ := hi
        exact ⟨List.getD_nil, List.getD_eq_default _ _ (by simp),
          List.getD_eq_default _ _ (by simp)⟩),
      memCountsUpTo,
      foldl_memCountStep_const _ _ _ 0 1 0 _ _ (by
        intro i hi
        rw [List.mem_range] at hi
        interval_cases i
        exact ⟨List.getD_nil, rfl, rfl⟩)]
    norm_num [memAdd, memSMul, memBump]
  have h := (memStats_classification (34/100) false [] [1] [0] ⟨5, 5, 5, 5⟩).2.2.2.1
    rfl (by rw [e1]; norm_num)
  rw [h, e1]
  norm_num

/-- Unit values of the concrete target pattern: on below 49, off above. -/
theorem ctrexTrg_getD (i : ℕ) : ctrexTrg.getD i 0 = if i < 49 then 1 else 0 := by
  unfold ctrexTrg
  by_cases h : i < 49
  · rw [List.getD_append _ _ _ _ (by simp [h]), getD_replicate_lt _ _ _ _ h, if_pos h]
  · rw [List.getD_append_right _ _ _ _ (by simpa using not_lt.mp h), if_neg h]
    exact getD_replicate_self _ _ _

/-- Unit values of the concrete `ActM` pattern: on below 49 and at 98. -/
theorem ctrexActM_getD (i : ℕ) :
    ctrexActM.getD i 0 = if i < 49 then 1 else if i = 98 then 1 else 0 := by
  unfold ctrexActM
  by_cases h1 : i < 49
  · rw [List.getD_append _ _ _ _ (by simp; omega), List.getD_append _ _ _ _ (by simp; omega),
      List.getD_append _ _ _ _ (by simp [h1]), getD_replicate_lt _ _ _ _ h1, if_pos h1]
  · rw [if_neg h1]
    by_cases h2 : i < 98
    · rw [List.getD_append _ _ _ _ (by simp; omega), List.getD_append _ _ _ _ (by simp; omega),
        List.getD_append_right _ _ _ _ (by simp; omega), if_neg (by omega)]
      exact getD_replicate_self _ _ _
    · by_cases h3 : i = 98
      · subst h3
        rw [List.getD_append _ _ _ _ (by simp), List.getD_append_right _ _ _ _ (by simp)]
        norm_num
      · rw [List.getD_append_right _ _ _ _ (by simp; omega), if_neg h3]
        exact getD_replicate_self _ _ _

/-- Unit values of the concrete ECin `ActQ1` pattern: all on. -/
theorem ctrexECin_getD (i : ℕ) (h : i < 294) : ctrexECin.getD i 0 = 1 :=
  getD_replicate_lt _ _ _ _ h

/-- The counters `Sim.MemStats` computes on the concrete patterns: only
the first 98 units are scanned, so the active unit 98 is not counted. -/
theorem ctrex_code_counts :
    memCounts ctrexActM ctrexTrg ctrexECin = ⟨0, 0, 0, 0, 49, 49⟩ := by
  have hsplit : memStatsN = 49 + 49 := rfl
  rw [memCounts, hsplit, memCountsUpTo_add,
    foldl_memCountStep_const _ _ _ 0 0 1 _ _ (by
      intro i hi
      simp only [List.mem_map, List.mem_range] at hi
      obtain ⟨j, hj, rfl⟩ := hi
      refine ⟨?_, ?_, ctrexECin_getD _ (by omega)⟩
      · rw [ctrexActM_getD, if_neg (by omega), if_neg (by omega)]
      · rw [ctrexTrg_getD, if_neg (by omega)]),
    memCountsUpTo,
    foldl_memCountStep_const _ _ _ 1 1 1 _ _ (by
      intro i hi
      rw [List.mem_range] at hi
      refine ⟨?_, ?_, ctrexECin_getD _ (by omega)⟩
      · rw [ctrexActM_getD, if_pos hi]
      · rw [ctrexTrg_getD, if_pos hi])]
  norm_num [memAdd, memSMul, memBump]

/-- The counters obtained by classifying every one of the 294 units of
the concrete patterns, as the spec's words prescribe: the active unit 98
is a counted false positive. -/
theorem ctrex_claimed_counts :
    memCountsClaimed ctrexActM ctrexTrg ctrexECin = ⟨0, 0, 1, 0, 49, 245⟩ := by
  have hlen : ctrexTrg.length = 98 + 196 := by
    unfold ctrexTrg
    rw [List.length_append, List.length_replicate, List.length_replicate]
  rw [memCountsClaimed, hlen, memCountsUpTo_add]
  have h98 : memCountsUpTo ctrexActM ctrexTrg ctrexECin 98 = ⟨0, 0, 0, 0, 49, 49⟩ :=
    ctrex_code_counts
  rw [h98, show (196 : ℕ) = 1 + 195 from rfl, List.range_add, List.map_append,
    List.foldl_append, show List.range 1 = [0] from rfl, List.map_cons, List.map_nil,
    List.foldl_cons, List.foldl_nil, memCountStep_eq_add,
    show (98 + 0 : ℕ) = 98 from rfl, ctrexActM_getD, ctrexTrg_getD,
    ctrexECin_getD 98 (by omega),
    foldl_memCountStep_const _ _ _ 0 0 1 _ _ (by
      intro i hi
      simp only [List.mem_map, List.mem_range] at hi
      obtain ⟨j, hj, h⟩ := hi
      obtain ⟨k, hk, rfl⟩ := hj
      subst h
      refine ⟨?_, ?_, ctrexECin_getD _ (by omega)⟩
      · rw [ctrexActM_getD, if_neg (by omega), if_neg (by omega)]
      · rw [ctrexTrg_getD, if_neg (by omega)])]
  norm_num [memAdd, memSMul, memBump]

/-- Claim C8 as stated is false: `Sim.MemStats` does not classify every
output-layer unit — its loop is hard-coded to the first `2*49 = 98` of
the 294 Output units.  On a target with units 0–48 on and an `ActM`
pattern that spuriously activates unit 98, the code's false-positive
figure (0: unit 98 is never scanned) differs from the value obtained by
classifying every unit and normalizing (1/245). -/
theorem memStats_scope_counterexample :
    (memStats (34/100) true ctrexActM ctrexTrg ctrexECin ⟨0, 0, 0, 0⟩).TrgOffWasOn
      ≠ (memStatsClaimed (34/100) true ctrexActM ctrexTrg ctrexECin ⟨0, 0, 0, 0⟩).TrgOffWasOn := by
  have h1 : (memStats (34/100) true ctrexActM ctrexTrg ctrexECin ⟨0, 0, 0, 0⟩).TrgOffWasOn
      = 0 := by
    simp [memStats, ctrex_code_counts]
  have h2 : (memStatsClaimed (34/100) true ctrexActM ctrexTrg ctrexECin ⟨0, 0, 0, 0⟩).TrgOffWasOn
      = 1/245 := by
    simp [memStatsClaimed, ctrex_claimed_counts]
  rw [h1, h2]
  norm_num

/-
Helper lemmas for the delta-application lag: the CHL learning pass
writes `DWt`, `Norm` and `Moment` of the synapses it processes, never
their linear weights.
-/

/-- The per-synapse CHL step keeps the linear weight. -/
theorem chlSynStep_LWt (chl : CHLParams) (lrn : LearnParams)
    (nf mf : ℚ → ℚ → ℚ × ℚ) (savgCor snActM : ℚ) (sn rn : Neuron) (sy : Synapse) :
    (chlSynStep chl lrn nf mf savgCor snActM sn rn sy).LWt = sy.LWt := rfl

/-- Mapping two functions that agree on the linear weight gives the same
linear-weight lists. -/
theorem map_LWt_comp {α : Type} (f g : α → Synapse) (l : List α)
    (hfg : ∀ x, (f x).LWt = (g x).LWt) :
    (l.map f).map Synapse.LWt = (l.map g).map Synapse.LWt := by
  rw [List.map_map, List.map_map]
  exact List.map_congr_left fun a _ => hfg a

/-- The per-sending-neuron section keeps every linear weight of a slice
whose index list is at least as long. -/
theorem map_LWt_chlSegStep (chl : CHLParams) (lrn : LearnParams)
    (nf mf : ℚ → ℚ → ℚ × ℚ) (savgCor snActM : ℚ) (sn : Neuron) (rns : List Neuron)
    (seg : List Synapse) (scons : List ℕ) (h : seg.length ≤ scons.length) :
    (chlSegStep chl lrn nf mf savgCor snActM sn rns seg scons).map Synapse.LWt
      = seg.map Synapse.LWt := by
  have hseg1 : ((seg.zip scons).map fun p =>
      chlSynStep chl lrn nf mf savgCor snActM sn (rns.getD p.2 default) p.1).map Synapse.LWt
        = seg.map Synapse.LWt := by
    refine Eq.trans (map_LWt_comp _ Prod.fst _ fun p => rfl) ?_
    rw [List.map_fst_zip _ _ h]
  unfold chlSegStep
  by_cases hN : lrn.NormOn
  · simp only [hN, if_true]
    refine Eq.trans (map_LWt_comp _ id _ fun sy => rfl) ?_
    rw [List.map_id]
    exact hseg1
  · simpa only [hN, if_false] using hseg1

/-- One iteration of the sending-neuron loop keeps every linear weight
when its slice bounds are inside the synapse and index arrays. -/
theorem map_LWt_dwtCHLStep (pj : CHLPrjn) (slay rlay : Layer)
    (nf mf : ℚ → ℚ → ℚ × ℚ) (syns : List Synapse) (si : ℕ)
    (_h1 : pj.SConIdxSt.getD si 0 + pj.SConN.getD si 0 ≤ syns.length)
    (h2 : pj.SConIdxSt.getD si 0 + pj.SConN.getD si 0 ≤ pj.SConIdx.length) :
    (dwtCHLStep pj slay rlay nf mf syns si).map Synapse.LWt = syns.map Synapse.LWt := by
  unfold dwtCHLStep
  have hseg : ((syns.drop (pj.SConIdxSt.getD si 0)).take (pj.SConN.getD si 0)).length
      ≤ ((pj.SConIdx.drop (pj.SConIdxSt.getD si 0)).take (pj.SConN.getD si 0)).length := by
    rw [List.length_take, List.length_take, List.length_drop, List.length_drop]
    omega
  have hassemble : syns.take (pj.SConIdxSt.getD si 0)
      ++ ((syns.drop (pj.SConIdxSt.getD si 0)).take (pj.SConN.getD si 0)
          ++ syns.drop (pj.SConIdxSt.getD si 0 + pj.SConN.getD si 0)) = syns := by
    rw [show syns.drop (pj.SConIdxSt.getD si 0 + pj.SConN.getD si 0)
        = (syns.drop (pj.SConIdxSt.getD si 0)).drop (pj.SConN.getD si 0) by
          rw [List.drop_drop, Nat.add_comm],
      List.take_append_drop, List.take_append_drop]
  rw [List.append_assoc, List.map_append, List.map_append,
    map_LWt_chlSegStep _ _ _ _ _ _ _ _ _ _ hseg, ← List.map_append, ← List.map_append,
    hassemble]

/-- The full sending-neuron loop keeps every linear weight. -/
theorem map_LWt_dwtCHL_foldl (pj : CHLPrjn) (slay rlay : Layer)
    (nf mf : ℚ → ℚ → ℚ × ℚ) (l : List ℕ) (syns : List Synapse)
    (h : ∀ si ∈ l, pj.SConIdxSt.getD si 0 + pj.SConN.getD si 0 ≤ syns.length ∧
        pj.SConIdxSt.getD si 0 + pj.SConN.getD si 0 ≤ pj.SConIdx.length) :
    (l.foldl (dwtCHLStep pj slay rlay nf mf) syns).map Synapse.LWt
      = syns.map Synapse.LWt := by
  induction l generalizing syns with
  | nil => rfl
  | cons si l ih =>
      have hsi := h si (List.mem_cons_self si l)
      have hstep := map_LWt_dwtCHLStep pj slay rlay nf mf syns si hsi.1 hsi.2
      have hlen : (dwtCHLStep pj slay rlay nf mf syns si).length = syns.length := by
        have := congrArg List.length hstep
        simpa using this
      rw [List.foldl_cons, ih _ (fun j hj => ?_), hstep]
      rw [hlen]
      exact h j (List.mem_cons_of_mem si hj)

/-- The whole CHL pass keeps every linear weight of a projection with
well-formed connectivity tables. -/
theorem map_LWt_DWtCHL (pj : CHLPrjn) (slay rlay : Layer)
    (nf mf : ℚ → ℚ → ℚ × ℚ) (h : pj.SegOK slay.Neurons.length) :
    ((pj.DWtCHL slay rlay nf mf).Syns).map Synapse.LWt = pj.Syns.map Synapse.LWt := by
  unfold CHLPrjn.DWtCHL
  split
  · rfl
  · exact map_LWt_dwtCHL_foldl pj slay rlay nf mf _ _
      (fun si hsi => h si (List.mem_range.mp hsi))

/-- The projection-level `DWt` dispatch keeps every linear weight when
the projection is in CHL mode or not learning. -/
theorem map_LWt_DWt (pj : CHLPrjn) (slay rlay : Layer)
    (nf mf : ℚ → ℚ → ℚ × ℚ) (prjnDWt : CHLPrjn → CHLPrjn)
    (hOK : pj.SegOK slay.Neurons.length)
    (hOn : pj.CHL.On = true ∨ pj.Learn.Learn = false) :
    ((pj.DWt slay rlay nf mf prjnDWt).Syns).map Synapse.LWt
      = pj.Syns.map Synapse.LWt := by
  unfold CHLPrjn.DWt
  cases hl : pj.Learn.Learn
  · simp [hl]
  · rcases hOn with hOn | hOn
    · simp only [hl, Bool.not_true, Bool.false_eq_true, if_false, hOn, if_true]
      exact map_LWt_DWtCHL pj slay rlay nf mf hOK
    · rw [hl] at hOn
      exact absurd hOn (by simp)

/-- Claim C6: weight deltas computed by the end-of-trial `DWt` pass are
not folded into the linear weights during that trial.  In the synaptic
model of `Sim.AlphaCyc`, `WtFmDWt` runs only as the first action of a
training trial, so the linear weights at the return of a training trial
are exactly those produced by that initial fold — the `DWt` pass at the
trial's end changed none of them — and a non-training trial changes no
synaptic state at all. -/
theorem alphaCyc_delta_lag (nf mf : ℚ → ℚ → ℚ × ℚ) (prjnDWt : CHLPrjn → CHLPrjn)
    (net : List PrjnCtx)
    (h : ∀ p ∈ net, (p.pj.CHL.On = true ∨ p.pj.Learn.Learn = false)
        ∧ p.pj.SegOK p.slay.Neurons.length) :
    netLWts (alphaCycSyn nf mf prjnDWt true net) = netLWts (netWtFmDWt net)
    ∧ alphaCycSyn nf mf prjnDWt false net = net := by
  constructor
  · show netLWts (netDWt nf mf prjnDWt (netWtFmDWt net)) = netLWts (netWtFmDWt net)
    unfold netLWts netDWt netWtFmDWt
    rw [List.map_map, List.map_map, List.map_map]
    apply List.map_congr_left
    intro p hp
    obtain ⟨hOn, hOK⟩ := h p hp
    apply map_LWt_DWt
    · intro si hsi
      have := hOK si hsi
      simpa using this
    · exact hOn
  · rfl

/-- Witness for the C6 theorem at a one-projection, one-synapse network:
after a training trial the linear weight holds the folded value 7/10
(= 1/2 + 2/10) while the freshly accumulated delta has not been applied. -/
theorem alphaCyc_delta_lag_witness :
    netLWts (alphaCycSyn (fun a b => (a, b)) (fun a b => (a, b)) id true
        [⟨⟨⟨true, 1/100, 99/100, false, false, 2/5, 1/1000⟩,
           ⟨true, 1/10, false, false, false⟩, [1], [0], [0], [⟨1/2, 2/10, 0, 0⟩]⟩,
          ⟨[⟨0, 0, 0, 1⟩], 1, 1⟩, ⟨[⟨0, 0, 0, 1⟩], 1, 1⟩⟩])
      = netLWts (netWtFmDWt
        [⟨⟨⟨true, 1/100, 99/100, false, false, 2/5, 1/1000⟩,
           ⟨true, 1/10, false, false, false⟩, [1], [0], [0], [⟨1/2, 2/10, 0, 0⟩]⟩,
          ⟨[⟨0, 0, 0, 1⟩], 1, 1⟩, ⟨[⟨0, 0, 0, 1⟩], 1, 1⟩⟩]) :=
  (alphaCyc_delta_lag (fun a b => (a, b)) (fun a b => (a, b)) id
    [⟨⟨⟨true, 1/100, 99/100, false, false, 2/5, 1/1000⟩,
       ⟨true, 1/10, false, false, false⟩, [1], [0], [0], [⟨1/2, 2/10, 0, 0⟩]⟩,
      ⟨[⟨0, 0, 0, 1⟩], 1, 1⟩, ⟨[⟨0, 0, 0, 1⟩], 1, 1⟩⟩]
    (by
      intro p hp
      rw [List.mem_singleton] at hp
      subst hp
      exact ⟨Or.inl rfl, by decide⟩)).1

end HipBench
